import Mathlib

/- Verification development for the Fisher-information / KL-curvature code in
fim.py and large_fim.py: a shallow embedding of the combinatorial index
bookkeeping, the perturbation update rules, the error-flag logic of the
linearized-perturbation solvers, and the finite-difference Hessian assembly,
together with theorems checking the specified properties.  Machine floats are
modelled by exact rationals; a float value that can be NaN or Inf is modelled
by the classification type FloatClass; code that can raise is modelled with
Option / Except. -/

set_option linter.unusedVariables false
set_option maxRecDepth 40000

namespace FIM

/- ================= Combinatorial Index Service (unravel_index) ================= -/

/- The helpers factorial and binom of fim.py (lines 2131-2141) compute binomial
coefficients in float64 arithmetic (a jitted loop of double multiplications
followed by two double divisions), and unravel_index truncates the result
with int().  The model below implements IEEE-754 double-precision values in
the positive normal range as an unnormalized significand/exponent pair with
correct round-to-nearest, ties-to-even at 53 significant bits, so that the
truncation error of the program (e.g. int(binom(24,1)) = 23) is reproduced
exactly. -/

/-- Number of binary digits of n, with explicit recursion fuel (4096 bits far
exceeds every magnitude the program can produce before float64 overflow). -/
def bitLenAux : ℕ → ℕ → ℕ
  | 0, _ => 0
  | fuel + 1, n => if n = 0 then 0 else bitLenAux fuel (n / 2) + 1

/-- Bit length of a natural number. -/
def bitLen (n : ℕ) : ℕ := bitLenAux 4096 n

/-- An IEEE double in the positive normal range (or zero), as value m * 2^e.
Results of the rounding below are normalized: 2^52 <= m < 2^53. -/
structure FP where
  m : ℕ
  e : ℤ

/-- Scale p/q by 2^j and split into quotient, remainder and denominator. -/
def shiftDiv (p q : ℕ) (j : ℤ) : ℕ × ℕ × ℕ :=
  let a := if 0 ≤ j then p * 2 ^ j.toNat else p
  let b := if 0 ≤ j then q else q * 2 ^ (-j).toNat
  (a / b, a % b, b)

/-- Round-to-nearest, ties-to-even on a floor M0 with remainder r over
denominator b. -/
def rnePick (M0 r b : ℕ) : ℕ :=
  if 2 * r < b then M0
  else if b < 2 * r then M0 + 1
  else if M0 % 2 = 0 then M0 else M0 + 1

/-- Round the positive rational (p/q) * 2^e0 to the nearest double
(round-to-nearest-even, 53 significant bits, no overflow or underflow in the
exercised range). -/
def roundPQ (p q : ℕ) (e0 : ℤ) : FP :=
  let j0 : ℤ := 53 - ((bitLen p : ℤ) - (bitLen q : ℤ))
  let M0 := (shiftDiv p q j0).1
  let j := if 2 ^ 53 ≤ M0 then j0 - 1 else j0
  let s := shiftDiv p q j
  let M := rnePick s.1 s.2.1 s.2.2
  if M = 2 ^ 53 then ⟨2 ^ 52, e0 - j + 1⟩ else ⟨M, e0 - j⟩

/-- Conversion of a (small) integer to double; exact below 2^53. -/
def floatOfNat (x : ℕ) : FP := roundPQ x 1 0

/-- Double multiplication with correct rounding. -/
def fmul (x y : FP) : FP := roundPQ (x.m * y.m) 1 (x.e + y.e)

/-- Double division with correct rounding. -/
def fdiv (x y : FP) : FP := roundPQ x.m y.m (x.e - y.e)

/-- The loop of factorial (fim.py lines 2131-2137): f = 1.; while x > 0:
f *= x; x -= 1, in double arithmetic (the int64 loop counter converts
exactly to double). -/
def factorialLoop : ℕ → FP → FP
  | 0, f => f
  | x + 1, f => factorialLoop x (fmul f (floatOfNat (x + 1)))

/-- factorial (fim.py lines 2131-2137). -/
def factorial (x : ℕ) : FP := factorialLoop x (floatOfNat 1)

/-- binom (fim.py lines 2139-2141):
factorial(n)/factorial(n-k)/factorial(k), two double divisions, left
associated. -/
def binom (n k : ℕ) : FP := fdiv (fdiv (factorial n) (factorial (n - k))) (factorial k)

/-- Python int() truncation toward zero of a positive double. -/
def intOfFP (x : FP) : ℕ :=
  if 0 ≤ x.e then x.m * 2 ^ x.e.toNat else x.m / 2 ^ (-x.e).toNat

/-- First addend of unravel_index (fim.py line 2175):
sum of int(binom(n-1-i, len(ijk)-1)) for i in range(ijk[0]), with binom
computed in float64 as the program does. -/
def unravelFirst (ijk : List ℕ) (n : ℕ) : ℕ :=
  Finset.sum (Finset.range (ijk.headD 0)) fun i =>
    intOfFP (binom (n - 1 - i) (ijk.length - 1))

/-- Loop addend of unravel_index (fim.py lines 2176-2178): for d in
range(1, len(ijk)-1), when ijk[d]-ijk[d-1] > 1, add
sum of int(binom(n-i-1, len(ijk)-d-1)) for i in range(ijk[d-1]+1, ijk[d]),
with binom computed in float64 as the program does. -/
def unravelMiddle (ijk : List ℕ) (n : ℕ) : ℕ :=
  Finset.sum (Finset.Ico 1 (ijk.length - 1)) fun d =>
    if ijk.getD d 0 - ijk.getD (d - 1) 0 > 1 then
      Finset.sum (Finset.Ico (ijk.getD (d - 1) 0 + 1) (ijk.getD d 0)) fun i =>
        intOfFP (binom (n - i - 1) (ijk.length - d - 1))
    else 0

/-- Final addend of unravel_index (fim.py line 2179): ijk[-1] - ijk[-2] - 1. -/
def unravelLast (ijk : List ℕ) : ℕ :=
  ijk.getD (ijk.length - 1) 0 - ijk.getD (ijk.length - 2) 0 - 1

/-- The rank value computed by unravel_index on a tuple passing its
assertions, float binomials included. -/
def unravelRank (ijk : List ℕ) (n : ℕ) : ℕ :=
  unravelFirst ijk n + unravelMiddle ijk n + unravelLast ijk

/-- delete (fim.py lines 2121-2129): the vector X with the element at position i
removed. -/
def delete {α : Type} (X : List α) (i : ℕ) : List α :=
  (X.enum.filter fun p => p.1 ≠ i).map Prod.snd

/-- Flat pair index as computed at every call site of unravel_index on a pair:
if i < j then unravel_index((i,j),n) else unravel_index((j,i),n). -/
def pairIndex (i j n : ℕ) : ℕ :=
  if i < j then unravelRank [i, j] n else unravelRank [j, i] n

/-- jit_observables_after_perturbation_plus (fim.py lines 2033-2051): snapshot
osisj of the pairwise table, then si[i] = si[i] - eps*(si[i] - si[a]) and for
every j other than i, entry (i,j) is rewritten reading (j,a) from the
snapshot (or the constant 1 when j = a). -/
def jit_observables_after_perturbation_plus (n : ℕ) (si sisj : List ℚ) (i a : ℕ)
    (eps : ℚ) : List ℚ × List ℚ :=
  let osisj := sisj
  let si' := si.set i (si.getD i 0 - eps * (si.getD i 0 - si.getD a 0))
  let sisj' := (delete (List.range n) i).foldl (fun s j =>
    let ijix := pairIndex i j n
    if j = a then
      s.set ijix (s.getD ijix 0 - eps * (s.getD ijix 0 - 1))
    else
      let jaix := pairIndex j a n
      s.set ijix (s.getD ijix 0 - eps * (s.getD ijix 0 - osisj.getD jaix 0))) sisj
  (si', sisj')

/-- IsingFisherCurvatureMethod2._observables_after_perturbation_up (fim.py lines
1093-1112), translated faithfully: note the heads 1 - eps*(...) where the jit
twin has si[i] - eps*(...) resp. sisj[ijix] - eps*(...), and the reads of
sisj[jaix] from the live table (no snapshot). -/
def method2_observables_after_perturbation_up (si sisj : List ℚ) (i a : ℕ)
    (eps : ℚ) : List ℚ × List ℚ :=
  let n := si.length
  let si' := si.set i (1 - eps * (si.getD i 0 - si.getD a 0))
  let sisj' := (delete (List.range n) i).foldl (fun s j =>
    let ijix := pairIndex i j n
    if j = a then
      s.set ijix (1 - eps * (s.getD ijix 0 - 1))
    else
      let jaix := pairIndex j a n
      s.set ijix (1 - eps * (s.getD ijix 0 - s.getD jaix 0))) sisj
  (si', sisj')

/- ================= Hessian assembly (C1, C6) ================= -/

/-- Raw fill of the Hessian: diagonal entries from the diagonal estimator d,
strict upper triangle from the off-diagonal estimator o, lower triangle
left zero (fim.py lines 665-673). -/
def upperTriRaw {m : ℕ} (d : Fin m → ℚ) (o : Fin m → Fin m → ℚ) :
    Fin m → Fin m → ℚ :=
  fun i j => if i = j then d i else if (i : ℕ) < (j : ℕ) then o i j else 0

/-- hess[triu] -= hess[i,i]/2 + hess[j,j]/2 on the strict upper triangle
(fim.py lines 676-677), reading the still-raw diagonal. -/
def subtractHalfDiag {m : ℕ} (H : Fin m → Fin m → ℚ) : Fin m → Fin m → ℚ :=
  fun i j => if (i : ℕ) < (j : ℕ) then H i j - (H i i / 2 + H j j / 2) else H i j

/-- hess += hess.T (fim.py line 679). -/
def addTransposed {m : ℕ} (H : Fin m → Fin m → ℚ) : Fin m → Fin m → ℚ :=
  fun i j => H i j + H j i

/-- hess[diag] /= 2 (fim.py line 680). -/
def halveDiag {m : ℕ} (H : Fin m → Fin m → ℚ) : Fin m → Fin m → ℚ :=
  fun i j => if i = j then H i j / 2 else H i j

/-- Full assembly pass of _maj_curvature (fim.py lines 665-680) and
_maj_curvature_high_prec (fim.py lines 813-828): raw fill of diagonal and
upper triangle, linear-term subtraction on the upper triangle, transpose
addition, diagonal halving. -/
def majCurvatureAssemble {m : ℕ} (d : Fin m → ℚ) (o : Fin m → Fin m → ℚ) :
    Fin m → Fin m → ℚ :=
  halveDiag (addTransposed (subtractHalfDiag (upperTriRaw d o)))

/-- Serial branch of _dkl_curvature (fim.py lines 402-406, large_fim.py lines
430-434): hess[i,i] = diag(i), hess[i,j] = hess[j,i] = off_diag((i,j)), and
no subtraction or symmetrization pass afterwards. -/
def dklCurvatureSerial {m : ℕ} (d : Fin m → ℚ) (o : Fin m → Fin m → ℚ) :
    Fin m → Fin m → ℚ :=
  fun i j => if i = j then d i else if (i : ℕ) < (j : ℕ) then o i j else o j i

/-- Parallel branch of _dkl_curvature (fim.py lines 408-415, large_fim.py lines
436-443): identical assembly to _maj_curvature. -/
def dklCurvatureParallel {m : ℕ} (d : Fin m → ℚ) (o : Fin m → Fin m → ℚ) :
    Fin m → Fin m → ℚ :=
  majCurvatureAssemble d o

/-- Concrete 2-perturbation instance separating the two _dkl_curvature branches:
raw diagonal entries 2 and 4, raw cross entry 1. -/
def c6diag : Fin 2 → ℚ := fun i => if i = 0 then 2 else 4

/-- Concrete raw off-diagonal estimator for the C6 counterexample. -/
def c6off : Fin 2 → Fin 2 → ℚ := fun _ _ => 1

/- ================= Error-flag logic of the solvers (C2) ================= -/

/-- Exact-arithmetic form of the stability test
(np.log10(np.abs(dJ-dJtwiceEps)) - np.log10(np.abs(dJ)) > -3).any()
used in every solve variant: entrywise log10|x-y| - log10|x| > -3 holds
iff 1000*|x-y| > |x| (the numpy corner cases log10(0) = -inf and
(-inf) - (-inf) = nan, with nan > -3 false, agree with this form). -/
def relerrExceeds (dJ dJtwiceEps : List ℚ) : Bool :=
  (dJ.zip dJtwiceEps).any fun x => 1000 * |x.1 - x.2| > |x.1|

/-- Error flag returned by IsingFisherCurvatureMethod1.solve_linearized_perturbation
(fim.py lines 270-289): the stability branch only prints a message and never
writes the flag; afterwards errflag = 1 if cond(A) > 1e15 else 0.  condA is
the value of np.linalg.cond(A). -/
def method1_errflag (check_stability : Bool) (dJ dJtwiceEps : List ℚ)
    (condA : ℚ) : ℕ :=
  if condA > 10 ^ 15 then 1 else 0

/-- Error flag returned by IsingFisherCurvatureMethod2._solve_linearized_perturbation
(fim.py lines 1286 and 1314-1331): errflag starts at 0; under check_stability
the eps/2 re-solve (check_stability=False) overwrites it with its own
cond-based flag (condAhalf is cond of the re-solve's matrix), then a relative
error above the -3 log-threshold sets 2; finally cond(A) > 1e15 forces 1. -/
def method2_errflag (check_stability : Bool) (dJ dJtwiceEps : List ℚ)
    (condA condAhalf : ℚ) : ℕ :=
  let errflag : ℕ := 0
  let errflag := if check_stability then (if condAhalf > 10 ^ 15 then 1 else 0)
                 else errflag
  let errflag := if check_stability && relerrExceeds dJ dJtwiceEps then 2
                 else errflag
  if condA > 10 ^ 15 then 1 else errflag

/-- Modelled from the spec: the error-flag policy claimed for every solve
variant (0 = ok, 1 = ill-conditioned with precedence, 2 = finite-difference
instability when check_stability is enabled). -/
def spec_errflag (check_stability : Bool) (dJ dJtwiceEps : List ℚ)
    (condA : ℚ) : ℕ :=
  if condA > 10 ^ 15 then 1
  else if check_stability && relerrExceeds dJ dJtwiceEps then 2
  else 0

/- ================= Adaptive eps search wrapper (C3) ================= -/

/-- The while-loop of the eps-search wrapper solve_linearized_perturbation
(fim.py lines 1230-1241, large_fim.py lines 204-215).  solve abstracts
_solve_linearized_perturbation, mapping eps to (dJ, errflag, relerr.max()),
with dJ opaque to the wrapper.  The loop state carries the python variables
eps, dJ, errflag, prevdJ, prevRelErr; fuel bounds the iteration count (the
python loop has no explicit bound). -/
def epsSearchLoop {α : Type} (solve : ℚ → α × ℕ × ℚ) (epsChangeFactor : ℚ) :
    ℕ → ℚ → α → ℕ → α → ℚ → α × ℕ
  | 0, _, dJ, errflag, _, _ => (dJ, errflag)
  | fuel + 1, eps, dJ, errflag, prevdJ, prevRelErr =>
    if errflag = 0 then (dJ, errflag)
    else
      let eps' := eps * epsChangeFactor
      let r := solve eps'
      if r.2.1 ≠ 0 ∧ r.2.2 < prevRelErr then
        epsSearchLoop solve epsChangeFactor fuel eps' r.1 r.2.1 r.1 r.2.2
      else (r.1, r.2.1)

/-- The eps-search wrapper solve_linearized_perturbation (fim.py lines
1198-1241, large_fim.py lines 172-215): solve at eps0, eps0*10, eps0/10; if
the base error beats both neighbours return the base solution; otherwise walk
in the better direction (ties go down) until the error stops improving.  Note
that the python variable eps last holds eps0/10 when the loop starts, in both
directions, and that the final return is the python variable dJ, i.e. the
base solution if the loop never ran, else the last solution computed. -/
def solve_linearized_perturbation_search {α : Type} (solve : ℚ → α × ℕ × ℚ)
    (eps0 : ℚ) (fuel : ℕ) : α × ℕ :=
  let r0 := solve eps0
  let rUp := solve (eps0 * 10)
  let rDown := solve (eps0 / 10)
  if r0.2.2 < rUp.2.2 ∧ r0.2.2 < rDown.2.2 then (r0.1, r0.2.1)
  else if rDown.2.2 ≤ rUp.2.2 then
    epsSearchLoop solve (1 / 10) fuel (eps0 / 10) r0.1 rDown.2.1 rDown.1 rDown.2.2
  else
    epsSearchLoop solve 10 fuel (eps0 / 10) r0.1 rUp.2.1 rUp.1 rUp.2.2

/-- Concrete solver trace for the eps search: dJ estimates are tagged 10..13,
every solve reports errflag 1, and the maximal relative errors are 1/2 at
eps=1, 3/5 at eps=10, 2/5 at eps=1/10 and 7/10 at eps=1/100. -/
def c3Trace : ℚ → ℕ × ℕ × ℚ := fun eps =>
  if eps = 1 then (10, 1, 1 / 2)
  else if eps = 10 then (11, 1, 3 / 5)
  else if eps = 1 / 10 then (12, 1, 2 / 5)
  else if eps = 1 / 100 then (13, 1, 7 / 10)
  else (14, 0, 9 / 10)

/- ================= Singular-matrix handling (C5) ================= -/

/-- dJ computation of IsingFisherCurvatureMethod1.solve_linearized_perturbation
with method='inverse' (fim.py lines 258-268) and its Magnetization twin
(large_fim.py lines 284-294): np.linalg.solve is abstracted as an
Except value whose error is np.linalg.LinAlgError (singular A); the except
branch builds np.zeros(C.size)+np.nan, modelled as a none-filled list, and
the final sign flip maps NaN to NaN.  The try/except makes the result always
ok. -/
def method1_solve_inverse_dJ (solveRes : Except Unit (List ℚ)) (eps : ℚ)
    (csize : ℕ) (perturb_up : Bool) : Except Unit (List (Option ℚ)) :=
  let dJ : List (Option ℚ) :=
    match solveRes with
    | .ok x => x.map fun v => some (v / eps)
    | .error _ => List.replicate csize none
  .ok (if perturb_up then dJ else dJ.map fun x => x.map fun v => -v)

/-- dJ computation of IsingFisherCurvatureMethod2._solve_linearized_perturbation
(fim.py line 1312): dJ = np.linalg.solve(A,C)/eps with no try/except, so a
LinAlgError propagates to the caller. -/
def method2_solve_dJ (solveRes : Except Unit (List ℚ)) (eps : ℚ) :
    Except Unit (List (Option ℚ)) := do
  let x ← solveRes
  pure (x.map fun v => some (v / eps))

/- ================= NaN/Inf post-condition (C8) ================= -/

/-- Classification of an IEEE double for the NaN/Inf post-condition checks. -/
inductive FloatClass where
  | num (q : ℚ)
  | nan
  | inf
  | ninf
deriving DecidableEq

/-- np.isnan on a classified float. -/
def FloatClass.isnan : FloatClass → Bool
  | .nan => true
  | _ => false

/-- np.isinf on a classified float (true for both infinities). -/
def FloatClass.isinf : FloatClass → Bool
  | .inf => true
  | .ninf => true
  | _ => false

/-- np.isnan(hess).any() over the assembled Hessian. -/
def anyNan (hess : List (List FloatClass)) : Bool :=
  hess.any fun row => row.any FloatClass.isnan

/-- np.isinf(hess).any() over the assembled Hessian. -/
def anyInf (hess : List (List FloatClass)) : Bool :=
  hess.any fun row => row.any FloatClass.isinf

/-- Post-condition gate of _maj_curvature (fim.py lines 682-684):
assert ~np.isnan(hess).any(); assert ~np.isinf(hess).any().  A failing
assertion (modelled by none) aborts before the Hessian is returned. -/
def maj_curvature_postcondition (hess : List (List FloatClass)) :
    Option (List (List FloatClass)) :=
  if anyNan hess then none
  else if anyInf hess then none
  else some hess

/-- Post-condition gate of _maj_curvature_high_prec (fim.py lines 830-831),
identical to the one of _maj_curvature. -/
def maj_curvature_high_prec_postcondition (hess : List (List FloatClass)) :
    Option (List (List FloatClass)) :=
  if anyNan hess then none
  else if anyInf hess then none
  else some hess

/- ================= Constructor precondition (C9) ================= -/

/-- Model state built by the constructors before the external maxent model is
attached: system size, number of spin states, perturbation step and the
concatenated parameter vector. -/
structure Method1State where
  n : ℕ
  kStates : ℕ
  eps : ℚ
  hJ : List ℚ
deriving DecidableEq

/-- IsingFisherCurvatureMethod1.__init__ (fim.py lines 35-40): assert n>1 and
0<eps<.1, then n, kStates=2, eps and hJ = concat(h,J) are stored.  The
external exact-enumeration collaborator built afterwards is out of scope
(spec section 6). -/
def isingFisherCurvatureMethod1_init (n : ℕ) (h J : List ℚ) (eps : ℚ) :
    Option Method1State :=
  if 1 < n ∧ 0 < eps ∧ eps < 1 / 10 then some ⟨n, 2, eps, h ++ J⟩ else none

/-- Magnetization.__init__ (large_fim.py lines 44-49): the same assertion and
stored fields; the sampled LargeIsing collaborator is out of scope. -/
def magnetization_init (n : ℕ) (h J : List ℚ) (eps : ℚ) :
    Option Method1State :=
  if 1 < n ∧ 0 < eps ∧ eps < 1 / 10 then some ⟨n, 2, eps, h ++ J⟩ else none

/- ================= Coarse-graining p2pk (C10) ================= -/

/-- p2pk (fim.py lines 437-458): pk[i] = p[invix==i].sum() for every i below
len(uix); the boolean mask pairs p with invix positionally. -/
def p2pk (p : List ℚ) (uixLen : ℕ) (invix : List ℕ) : List ℚ :=
  (List.range uixLen).map fun i =>
    (((p.zip invix).filter fun x => x.2 == i).map Prod.fst).sum

/- ======================= Theorems ======================= -/

lemma majCurvatureAssemble_apply {m : ℕ} (d : Fin m → ℚ) (o : Fin m → Fin m → ℚ)
    (i j : Fin m) :
    majCurvatureAssemble d o i j =
      if i = j then d i
      else if (i : ℕ) < (j : ℕ) then o i j - d i / 2 - d j / 2
      else o j i - d j / 2 - d i / 2 := by
  unfold majCurvatureAssemble halveDiag addTransposed subtractHalfDiag upperTriRaw
  rcases lt_trichotomy ((i : ℕ)) ((j : ℕ)) with h | h | h
  · have hne : i ≠ j := fun he => by simp [he] at h
    have hnlt : ¬ ((j : ℕ) < (i : ℕ)) := by omega
    simp [hne, Ne.symm hne, h, hnlt]
    ring
  · have he : i = j := Fin.ext h
    subst he
    simp
  · have hne : i ≠ j := fun he => by simp [he] at h
    have hnlt : ¬ ((i : ℕ) < (j : ℕ)) := by omega
    simp [hne, Ne.symm hne, h, hnlt]
    ring

/-- C1: in the coarse-grained Hessian estimators (_maj_curvature and
_maj_curvature_high_prec) the assembled Hessian H satisfies, for every raw
diagonal fill d and raw off-diagonal fill o and all i < j:
H i j = H j i = o i j - d i / 2 - d j / 2, H i i = d i (the diagonal is
halved exactly once, after the lower-triangle fill), and H is exactly
symmetric. -/
theorem maj_curvature_fill (m : ℕ) (d : Fin m → ℚ) (o : Fin m → Fin m → ℚ)
    (i j : Fin m) (hij : (i : ℕ) < (j : ℕ)) :
    majCurvatureAssemble d o i j = o i j - d i / 2 - d j / 2
    ∧ majCurvatureAssemble d o j i = o i j - d i / 2 - d j / 2
    ∧ majCurvatureAssemble d o i i = d i
    ∧ ∀ u v : Fin m, majCurvatureAssemble d o u v = majCurvatureAssemble d o v u := by
  have hne : i ≠ j := fun he => by simp [he] at hij
  have hnlt : ¬ ((j : ℕ) < (i : ℕ)) := by omega
  refine ⟨?_, ?_, ?_, ?_⟩
  · rw [majCurvatureAssemble_apply]
    simp [hne, hij]
  · rw [majCurvatureAssemble_apply]
    simp [Ne.symm hne, hnlt]
  · rw [majCurvatureAssemble_apply]
    simp
  · intro u v
    rw [majCurvatureAssemble_apply, majCurvatureAssemble_apply]
    rcases lt_trichotomy ((u : ℕ)) ((v : ℕ)) with h | h | h
    · have hne' : u ≠ v := fun he => by simp [he] at h
      have h' : ¬ ((v : ℕ) < (u : ℕ)) := by omega
      simp [hne', Ne.symm hne', h, h']
    · have : u = v := Fin.ext h
      subst this; rfl
    · have hne' : u ≠ v := fun he => by simp [he] at h
      have h' : ¬ ((u : ℕ) < (v : ℕ)) := by omega
      simp [hne', Ne.symm hne', h, h']

/-- C1 witness: the assembly evaluated at a concrete raw fill on two
perturbations. -/
theorem maj_curvature_fill_witness :
    majCurvatureAssemble (fun i : Fin 2 => if i = 0 then 2 else 4)
        (fun _ _ => 1) 0 1 = 1 - 2 / 2 - 4 / 2 := by
  have h := (maj_curvature_fill 2 (fun i : Fin 2 => if i = 0 then 2 else 4)
    (fun _ _ => 1) 0 1 (by decide)).1
  rw [h]
  norm_num

/-- C2 counterexample: with a well-conditioned matrix (cond(A) = 1 at eps and
eps/2), check_stability enabled, and an entrywise relative error above the
-3 log-threshold (dJ = [1] vs eps/2 solution [2]), Method1's
solve_linearized_perturbation returns flag 0 while the claimed policy
demands flag 2. -/
theorem method1_errflag_ne_spec :
    method1_errflag true [1] [2] 1 = 0 ∧ spec_errflag true [1] [2] 1 = 2 := by
  constructor
  · norm_num [method1_errflag]
  · norm_num [spec_errflag, relerrExceeds]

/-- C2 amended: Method2's _solve_linearized_perturbation returns 1 when
cond(A) > 1e15; else 2 when check_stability is on and some entry's relative
error exceeds the -3 log-threshold; else, when check_stability is on, the
flag inherited from the eps/2 re-solve (1 iff that matrix is
ill-conditioned, else 0); else 0.  Method1's solve_linearized_perturbation
returns 1 iff cond(A) > 1e15 and never reports flag 2: its stability check
only prints a warning. -/
theorem errflag_policy (cs : Bool) (dJ dJ2 : List ℚ) (condA condAhalf : ℚ) :
    method2_errflag cs dJ dJ2 condA condAhalf =
      (if condA > 10 ^ 15 then 1
       else if cs && relerrExceeds dJ dJ2 then 2
       else if cs && decide (condAhalf > 10 ^ 15) then 1
       else 0)
    ∧ method1_errflag cs dJ dJ2 condA = (if condA > 10 ^ 15 then 1 else 0) := by
  unfold method2_errflag method1_errflag
  refine ⟨?_, rfl⟩
  cases cs <;> by_cases h1 : condA > 10 ^ 15 <;>
    by_cases h2 : relerrExceeds dJ dJ2 <;>
    by_cases h3 : condAhalf > 10 ^ 15 <;>
    simp [h1, h2, h3]

/-- C3: the adaptive eps-search wrapper evaluated on the concrete c3Trace
solver: the base error 1/2 does not beat both neighbours, the search walks
down (2/5 at eps=1/10 beats 3/5 at eps=10), the next probe at eps=1/100 has
the worse error 7/10, so the loop stops - and the wrapper returns that last
probe (tag 13, error 7/10) instead of the best-so-far estimate (tag 12,
error 2/5) that it carried in prevdJ. -/
theorem eps_search_returns_last_not_best :
    solve_linearized_perturbation_search c3Trace 1 5 = (13, 1)
    ∧ (c3Trace (1 / 10)).1 = 12
    ∧ (c3Trace (1 / 10)).2.2 < (c3Trace (1 / 100)).2.2 := by
  refine ⟨?_, by norm_num [c3Trace], by norm_num [c3Trace]⟩
  unfold solve_linearized_perturbation_search
  norm_num [c3Trace]
  rw [show (5 : ℕ) = 4 + 1 from rfl]
  simp only [epsSearchLoop]
  norm_num [c3Trace]

/-- C5 counterexample: a singular A (np.linalg.LinAlgError) propagates out of
Method2's _solve_linearized_perturbation instead of being caught: no NaN
vector is returned on that path. -/
theorem method2_solve_raises :
    method2_solve_dJ (.error ()) 1 = .error () := rfl

/-- C5 amended: with method='inverse', the Method1-style solvers (Method1 and
the Magnetization analogue) catch the LinAlgError and return a NaN-filled dJ
of the size of C together with the error flag, while Method2's
_solve_linearized_perturbation leaves np.linalg.solve unguarded and the
exception propagates. -/
theorem singular_A_handling (eps : ℚ) (csize : ℕ) (perturb_up : Bool) :
    method1_solve_inverse_dJ (.error ()) eps csize perturb_up
        = .ok (List.replicate csize none)
    ∧ method2_solve_dJ (.error ()) eps = .error () := by
  refine ⟨?_, rfl⟩
  unfold method1_solve_inverse_dJ
  cases perturb_up <;> simp [List.map_replicate]

/-- C6: the serial and the parallel branch of _dkl_curvature disagree: with raw
diagonal entries 2 and 4 and raw cross entry 1, the serial branch (n_cpus=1)
returns 1 at position (0,1) because it skips the linear-term subtraction,
while the parallel branch returns 1 - 2/2 - 4/2 = -2. -/
theorem dkl_curvature_serial_ne_parallel :
    dklCurvatureSerial c6diag c6off 0 1 = 1
    ∧ dklCurvatureParallel c6diag c6off 0 1 = -2
    ∧ dklCurvatureSerial c6diag c6off 0 1 ≠ dklCurvatureParallel c6diag c6off 0 1 := by
  have h01 : (0 : Fin 2) ≠ 1 := by decide
  have h10 : (1 : Fin 2) ≠ 0 := by decide
  have hv : ((0 : Fin 2) : ℕ) < ((1 : Fin 2) : ℕ) := by decide
  have hs : dklCurvatureSerial c6diag c6off 0 1 = 1 := by
    simp [dklCurvatureSerial, c6off, h01, hv]
  have hp : dklCurvatureParallel c6diag c6off 0 1 = -2 := by
    rw [dklCurvatureParallel, majCurvatureAssemble_apply]
    simp [c6diag, c6off, h01, h10, hv]
    norm_num
  exact ⟨hs, hp, by rw [hs, hp]; norm_num⟩

/-- C7: at n=2, i=0, a=1, eps=1/100, si=[1/2,1/4], sisj=[1/3] the jit
implementation follows the claimed update rule
(si[0] becomes 1/2 - (1/100)*(1/2 - 1/4) = 199/400), while the cited
Method2._observables_after_perturbation_up returns 399/400 for si[0] and
151/150 for the pair entry: the two implementations of the mean-matching
perturbation disagree, and only the jit one satisfies the claim. -/
theorem method2_up_diverges_from_claim :
    jit_observables_after_perturbation_plus 2 [1/2, 1/4] [1/3] 0 1 (1/100)
        = ([199/400, 1/4], [17/50])
    ∧ method2_observables_after_perturbation_up [1/2, 1/4] [1/3] 0 1 (1/100)
        = ([399/400, 1/4], [151/150])
    ∧ (method2_observables_after_perturbation_up [1/2, 1/4] [1/3] 0 1
        (1/100)).1.getD 0 0
      ≠ (jit_observables_after_perturbation_plus 2 [1/2, 1/4] [1/3] 0 1
        (1/100)).1.getD 0 0 := by
  have hdel : delete (List.range 2) 0 = [1] := by decide
  have hpair : pairIndex 0 1 2 = 0 := by decide
  have hjit : jit_observables_after_perturbation_plus 2 [1/2, 1/4] [1/3] 0 1 (1/100)
      = ([199/400, 1/4], [17/50]) := by
    unfold jit_observables_after_perturbation_plus
    rw [hdel]
    norm_num [hpair]
  have hup : method2_observables_after_perturbation_up [1/2, 1/4] [1/3] 0 1 (1/100)
      = ([399/400, 1/4], [151/150]) := by
    unfold method2_observables_after_perturbation_up
    norm_num [hdel, hpair]
  refine ⟨hjit, hup, ?_⟩
  rw [hjit, hup]
  norm_num

/-- C8: the coarse-grained curvature estimators return a Hessian only when it
passes the no-NaN/Inf assertions, for both _maj_curvature and
_maj_curvature_high_prec: every entry of a returned Hessian is neither NaN
nor Inf. -/
theorem maj_curvature_no_nan_inf (hess out : List (List FloatClass))
    (h : maj_curvature_postcondition hess = some out
       ∨ maj_curvature_high_prec_postcondition hess = some out) :
    ∀ row ∈ out, ∀ x ∈ row, x.isnan = false ∧ x.isinf = false := by
  have key : anyNan hess = false → anyInf hess = false → out = hess →
      ∀ row ∈ out, ∀ x ∈ row, x.isnan = false ∧ x.isinf = false := by
    intro hn hi he row hrow x hx
    have hrow' : row ∈ hess := by rw [← he]; exact hrow
    refine ⟨?_, ?_⟩
    · by_contra hc
      have htrue : anyNan hess = true :=
        List.any_eq_true.2 ⟨row, hrow', List.any_eq_true.2 ⟨x, hx, by simpa using hc⟩⟩
      simp [htrue] at hn
    · by_contra hc
      have htrue : anyInf hess = true :=
        List.any_eq_true.2 ⟨row, hrow', List.any_eq_true.2 ⟨x, hx, by simpa using hc⟩⟩
      simp [htrue] at hi
  rcases h with h | h
  · unfold maj_curvature_postcondition at h
    by_cases hn : anyNan hess = true
    · simp [hn] at h
    · by_cases hi : anyInf hess = true
      · simp [hn, hi] at h
      · simp [hn, hi] at h
        exact key (by simpa using hn) (by simpa using hi) h.symm
  · unfold maj_curvature_high_prec_postcondition at h
    by_cases hn : anyNan hess = true
    · simp [hn] at h
    · by_cases hi : anyInf hess = true
      · simp [hn, hi] at h
      · simp [hn, hi] at h
        exact key (by simpa using hn) (by simpa using hi) h.symm

/-- C8 witness: a concrete finite Hessian passes the gate and its entry
satisfies the predicate. -/
theorem maj_curvature_no_nan_inf_witness :
    (FloatClass.num 1).isnan = false ∧ (FloatClass.num 1).isinf = false :=
  maj_curvature_no_nan_inf [[FloatClass.num 1]] [[FloatClass.num 1]]
    (Or.inl rfl) [FloatClass.num 1] (by simp) (FloatClass.num 1) (by simp)

/-- C9: both public constructors enforce n > 1 and 0 < eps < 0.1 by assertion
before any model state is built: construction succeeds exactly when the
predicate holds. -/
theorem constructor_precondition_gate (n : ℕ) (h J : List ℚ) (eps : ℚ) :
    ((isingFisherCurvatureMethod1_init n h J eps).isSome ↔
      (1 < n ∧ 0 < eps ∧ eps < 1 / 10))
    ∧ ((magnetization_init n h J eps).isSome ↔
      (1 < n ∧ 0 < eps ∧ eps < 1 / 10)) := by
  unfold isingFisherCurvatureMethod1_init magnetization_init
  constructor <;> · split <;> simp_all

lemma sum_map_add_distrib (l : List ℕ) (f g : ℕ → ℚ) :
    (l.map fun i => f i + g i).sum = (l.map f).sum + (l.map g).sum := by
  induction l with
  | nil => simp
  | cons a t ih => simp [ih]; ring

lemma sum_map_indicator (a1 : ℚ) (a2 m : ℕ) (h : a2 < m) :
    ((List.range m).map fun i => if a2 = i then a1 else 0).sum = a1 := by
  induction m with
  | zero => omega
  | succ k ih =>
    rw [List.range_succ]
    by_cases hk : a2 = k
    · subst hk
      have hz : ((List.range a2).map fun i => if a2 = i then a1 else 0).sum = 0 := by
        apply List.sum_eq_zero
        intro x hx
        simp only [List.mem_map] at hx
        obtain ⟨i, hi, hxe⟩ := hx
        have hne : a2 ≠ i := by
          have := List.mem_range.1 hi
          omega
        simp [← hxe, hne]
      simp [hz]
    · have ha : a2 < k := by omega
      simp [ih ha, hk]

lemma p2pk_bins_sum (m : ℕ) :
    ∀ l : List (ℚ × ℕ), (∀ x ∈ l, x.2 < m) →
      ((List.range m).map fun i =>
        ((l.filter fun x => x.2 == i).map Prod.fst).sum).sum
        = (l.map Prod.fst).sum := by
  intro l
  induction l with
  | nil => intro _; simp
  | cons a t ih =>
    intro hb
    have hat : a.2 < m := hb a (by simp)
    have hbt : ∀ x ∈ t, x.2 < m := fun x hx => hb x (by simp [hx])
    have hfilter : ∀ i : ℕ,
        (((a :: t).filter fun x => x.2 == i).map Prod.fst).sum
          = (if a.2 = i then a.1 else 0)
            + ((t.filter fun x => x.2 == i).map Prod.fst).sum := by
      intro i
      by_cases hi : a.2 = i
      · simp [List.filter_cons, hi]
      · simp [List.filter_cons, hi]
    simp only [hfilter]
    rw [sum_map_add_distrib, sum_map_indicator a.1 a.2 m hat, ih hbt]
    simp

/-- C10: the coarse-graining p2pk conserves total probability mass: when invix
has the length of p and every bin index lies below len(uix), the entries of
p2pk(p, uix, invix) sum to the sum of the entries of p. -/
theorem p2pk_conserves_mass (p : List ℚ) (uixLen : ℕ) (invix : List ℕ)
    (hlen : invix.length = p.length) (hbound : ∀ v ∈ invix, v < uixLen) :
    (p2pk p uixLen invix).sum = p.sum := by
  unfold p2pk
  have hz : ∀ x ∈ p.zip invix, x.2 < uixLen := by
    intro x hx
    exact hbound x.2 (List.of_mem_zip hx).2
  rw [p2pk_bins_sum uixLen (p.zip invix) hz]
  have hfst : (p.zip invix).map Prod.fst = p := List.map_fst_zip p invix (by omega)
  rw [hfst]

/-- C10 witness: mass conservation evaluated on a concrete distribution with
three states folded into two bins. -/
theorem p2pk_conserves_mass_witness :
    (p2pk [1/2, 1/4, 1/4] 2 [0, 1, 0]).sum = ([1/2, 1/4, 1/4] : List ℚ).sum :=
  p2pk_conserves_mass [1/2, 1/4, 1/4] 2 [0, 1, 0] (by decide) (by decide)


/- ----- combinatorics of the lexicographic tuple enumeration (C4) ----- -/

lemma indexOf_lt_length_of_mem {α : Type} [BEq α] [LawfulBEq α] {a : α} :
    ∀ {l : List α}, a ∈ l → List.indexOf a l < l.length := by
  intro l
  induction l with
  | nil => intro h; cases h
  | cons b t ih =>
    intro h
    rw [List.indexOf_cons]
    by_cases hb : (b == a) = true
    · simp [hb]
    · rcases List.mem_cons.1 h with h' | h'
      · subst h'; simp at hb
      · simpa [hb] using Nat.succ_lt_succ (ih h')

end FIM
